import Mathlib

/-!
Verification of the metric-derivation pipeline of the
signum-measurement-analyzis repository.

The development shallowly embeds the pipeline functions of
`sync_progress_analyzer.py` and
`sync_measurement_analyzis_tool/sync_measurement_analyzer.py`:

* `process_progress_df` (row enrichment, both variants),
* `get_stats_dict` (summary statistics, progress variant),
* the comparison-delta classification and rendering of
  `create_combined_summary_table`.

Numeric cell values are embedded as exact rationals (idealized arithmetic:
floating-point rounding is not modelled).  Missing values (pandas `NA`/`NaN`
produced by `diff`/`replace`) are `Option` values.  Statistics whose exact
value is irrational (sample standard deviation, Fisher-Pearson adjusted
skewness) are kept in a symbolic representation (`PyVal.root`,
`PyVal.skewV`) that records the exact data the Python code feeds into the
square root; comparisons on these representations are the exact real-number
comparisons.  Display strings are embedded symbolically (`DispVal`): each
constructor records one Python format expression together with its exact
argument, so that statements about "N/A" versus "nan" versus "0.00" are
faithful without modelling decimal float formatting.
-/

set_option autoImplicit false

namespace SignumPipeline

/-- Python `int(q)`: truncation toward zero (`sync_progress_analyzer.py`,
line 188, `int(seconds)` inside `format_seconds`). -/
def pyInt (q : ℚ) : Int :=
  if q < 0 then -⌊-q⌋ else ⌊q⌋

/-- Two-digit zero padding used by `str(timedelta)` for minutes/seconds. -/
def pad2 (n : ℕ) : String :=
  if n < 10 then "0" ++ toString n else toString n

/-- Python `str(timedelta(seconds = n))`: normalizes to days plus a
remainder in `[0, 86400)` and renders `D day(s), H:MM:SS` (hours unpadded,
the day part only when nonzero, plural unless the day count is `1` or
`-1`). -/
def timedeltaStr (n : Int) : String :=
  let d : Int := Int.fdiv n 86400
  let r : ℕ := (Int.fmod n 86400).toNat
  let base := toString (r / 3600) ++ ":" ++ pad2 (r % 3600 / 60) ++ ":" ++ pad2 (r % 60)
  if d = 0 then base
  else toString d ++ (if d = 1 ∨ d = -1 then " day, " else " days, ") ++ base

/-- `format_seconds` (`sync_progress_analyzer.py` lines 184-188):
`str(timedelta(seconds=int(seconds)))`.  The `pd.isna` guard of the source
is unreachable in this embedding because embedded cell values are plain
rationals, never `NaN`. -/
def format_seconds (q : ℚ) : String :=
  timedeltaStr (pyInt q)

/-- Tail of `Series.diff()`: consecutive differences, given the previous
value `prev`. -/
def diffPairs (prev : ℚ) : List ℚ → List ℚ
  | [] => []
  | x :: xs => (x - prev) :: diffPairs x xs

/-- pandas `Series.diff()`: first element `NaN` (here `none`), then the
consecutive differences. -/
def seriesDiff : List ℚ → List (Option ℚ)
  | [] => []
  | x :: xs => none :: (diffPairs x xs).map some

/-- `Series.replace(0, pd.NA)` on an already partially-missing series. -/
def replaceZeroNA (l : List (Option ℚ)) : List (Option ℚ) :=
  l.map fun o =>
    match o with
    | some x => if x = 0 then none else some x
    | none => none

/-- Division with pandas missing-value propagation: the quotient is missing
whenever either operand is. -/
def divNA : Option ℚ → Option ℚ → Option ℚ
  | some a, some b => some (a / b)
  | _, _ => none

/-- Lines 515-517 of `sync_progress_analyzer.py` (identical at lines
1311-1313 of the measurement variant):
`(df['Block_height'].diff() / df[time_col].diff().replace(0, pd.NA)).fillna(0)`. -/
def computeBps (hs ts : List ℚ) : List ℚ :=
  (List.zipWith divNA (seriesDiff hs) (replaceZeroNA (seriesDiff ts))).map (fun o => o.getD 0)

/-- The dataframe columns the specified pipeline reads or writes.  A column
is `none` when absent from the frame.  `nrows` is the row count; on
well-formed frames (`DF.wf`) every present column has `nrows` entries.
The `Block_timestamp` date-derivation of the measurement variant (lines
1315-1325) only touches columns outside this set and is not modelled. -/
structure DF where
  nrows : ℕ
  /-- `Block_height` -/
  height : Option (List ℚ)
  /-- `Accumulated_sync_in_progress_time[s]` -/
  accS : Option (List ℚ)
  /-- `Accumulated_sync_in_progress_time[ms]` -/
  accMs : Option (List ℚ)
  /-- `Accumulated_sync_time[ms]` (fallback used only by the measurement
  variant, line 1298) -/
  accTotalMs : Option (List ℚ)
  /-- derived `SyncTime_Formatted` -/
  syncFmt : Option (List String)
  /-- derived `Blocks_per_Second` -/
  bps : Option (List ℚ)
  deriving DecidableEq

/-- A present column has exactly `n` entries. -/
def colOk {α : Type} (c : Option (List α)) (n : ℕ) : Bool :=
  match c with
  | none => true
  | some l => l.length == n

/-- Well-formedness: every present column has `nrows` entries (pandas
guarantees rectangular frames). -/
def DF.wf (df : DF) : Bool :=
  colOk df.height df.nrows && colOk df.accS df.nrows && colOk df.accMs df.nrows &&
    colOk df.accTotalMs df.nrows && colOk df.syncFmt df.nrows && colOk df.bps df.nrows

/-- Time-column resolution of the progress variant
(`sync_progress_analyzer.py` lines 500-508): the seconds column is
preferred; otherwise the milliseconds column is divided by 1000; otherwise
no time column is resolved. -/
def resolveTimeProgress (df : DF) : Option (List ℚ) :=
  match df.accS with
  | some ts => some ts
  | none =>
    match df.accMs with
    | some ms => some (ms.map (· / 1000))
    | none => none

/-- Time-column resolution of the measurement variant
(`sync_measurement_analyzer.py` lines 1289-1304): the milliseconds column
is preferred (divided by 1000), then the seconds column, then the fallback
`Accumulated_sync_time[ms]` column (divided by 1000). -/
def resolveTimeMeasure (df : DF) : Option (List ℚ) :=
  match df.accMs with
  | some ms => some (ms.map (· / 1000))
  | none =>
    match df.accS with
    | some ts => some ts
    | none =>
      match df.accTotalMs with
      | some ms2 => some (ms2.map (· / 1000))
      | none => none

/-- Shared enrichment step (lines 514-517 of the progress variant, lines
1310-1313 of the measurement variant): write `SyncTime_Formatted` and
`Blocks_per_Second` from the resolved time column, provided `Block_height`
exists; otherwise return the frame as it stands. -/
def enrichBps (df : DF) (ts : List ℚ) : DF :=
  match df.height with
  | none => df
  | some hs =>
    { df with syncFmt := some (ts.map format_seconds)
              bps := some (computeBps hs ts) }

/-- `process_progress_df` of `sync_progress_analyzer.py` (lines 491-518).
When the frame is empty it is returned as is; the seconds column is
preferred (line 500); when only the milliseconds column exists, the
converted seconds column is written into the frame *before* the
`Block_height` check (line 504 precedes line 510), so that mutation
survives the early return of line 512. -/
def process_progress_df (df : DF) : DF :=
  if df.nrows = 0 then df
  else
    match df.accS, df.accMs with
    | some ts, _ => enrichBps df ts
    | none, some ms => enrichBps { df with accS := some (ms.map (· / 1000)) } (ms.map (· / 1000))
    | none, none => df

/-- `process_progress_df` of
`sync_measurement_analyzis_tool/sync_measurement_analyzer.py` (lines
1276-1313).  The milliseconds branch (line 1289) and the fallback branch
(line 1298) overwrite the seconds column with the converted values before
the `Block_height` check; only the pure seconds branch (line 1294) leaves
the frame untouched. -/
def process_measurement_df (df : DF) : DF :=
  if df.nrows = 0 then df
  else
    match df.accMs, df.accS, df.accTotalMs with
    | some ms, _, _ => enrichBps { df with accS := some (ms.map (· / 1000)) } (ms.map (· / 1000))
    | none, some ts, _ => enrichBps df ts
    | none, none, some ms2 =>
      enrichBps { df with accS := some (ms2.map (· / 1000)) } (ms2.map (· / 1000))
    | none, none, none => df

/-- A numeric value as the Python code holds it, in idealized (exact real)
arithmetic.  `root k` stands for `sqrt k` with `0 ≤ k` (sample standard
deviation); `skewV n m3 m2` stands for the Fisher-Pearson adjusted skewness
`n * sqrt (n - 1) / (n - 2) * m3 / m2 ^ (3 / 2)` built by pandas from the
centered second and third moment sums `m2 > 0`, `m3` of an `n ≥ 3` sample. -/
inductive PyVal where
  | nan : PyVal
  | num (q : ℚ) : PyVal
  | root (k : ℚ) : PyVal
  | skewV (n : ℕ) (m3 m2 : ℚ) : PyVal
  deriving DecidableEq

/-- Sign of the real value represented by a `PyVal` (`none` for `NaN`).
The skewness multiplier `n * sqrt (n - 1) / (n - 2) / m2 ^ (3 / 2)` is
positive, so the sign of a `skewV` is the sign of `m3`. -/
def PyVal.sgn : PyVal → Option Int
  | .nan => none
  | .num q => some (if 0 < q then 1 else if q < 0 then -1 else 0)
  | .root k => some (if 0 < k then 1 else 0)
  | .skewV _ m3 _ => some (if 0 < m3 then 1 else if m3 < 0 then -1 else 0)

/-- Square of the real value represented by a non-`NaN` `PyVal` (`0` for
`NaN`, unused).  Together with `PyVal.sgn` this determines the value. -/
def PyVal.sq : PyVal → ℚ
  | .nan => 0
  | .num q => q ^ 2
  | .root k => k
  | .skewV n m3 m2 => ((n : ℚ) ^ 2 * ((n : ℚ) - 1) * m3 ^ 2) / (((n : ℚ) - 2) ^ 2 * m2 ^ 3)

/-- Python `a == b` on the represented real values; any comparison with
`NaN` is `False`. -/
def pyEq (a b : PyVal) : Bool :=
  match a.sgn, b.sgn with
  | some sa, some sb => sa == sb && a.sq == b.sq
  | _, _ => false

/-- Python `a < b` on the represented real values; any comparison with
`NaN` is `False`.  Values with equal signs compare by their squares
(reversed on the negative side). -/
def pyLt (a b : PyVal) : Bool :=
  match a.sgn, b.sgn with
  | some sa, some sb =>
    if sa < sb then true
    else if sb < sa then false
    else if sa = 1 then decide (a.sq < b.sq)
    else if sa = -1 then decide (b.sq < a.sq)
    else false
  | _, _ => false

/-- Python `abs(a) < abs(b)`; `False` when either side is `NaN`. -/
def pyAbsLt (a b : PyVal) : Bool :=
  match a.sgn, b.sgn with
  | some _, some _ => decide (a.sq < b.sq)
  | _, _ => false

/-- Display strings of the summary table, kept symbolic: each constructor
is one Python format expression with its exact argument. -/
inductive DispVal where
  /-- the literal string `N/A` -/
  | na : DispVal
  /-- the string `nan` produced by formatting `NaN` with `:.2f` -/
  | nanStr : DispVal
  /-- `f-string {q:.2f}` -/
  | fixed2 (q : ℚ) : DispVal
  /-- `f-string {sqrt k:.2f}` -/
  | fixed2Root (k : ℚ) : DispVal
  /-- `f-string {skew:.2f}` of the skewness represented by `(n, m3, m2)` -/
  | fixed2Skew (n : ℕ) (m3 m2 : ℚ) : DispVal
  /-- `f-string {q:,}` (thousands separators) -/
  | thousands (q : ℚ) : DispVal
  /-- `f-string {format_seconds(t)} ({int(t)}s)` -/
  | secondsFmt (t : ℚ) : DispVal
  deriving DecidableEq

/-- `f-string {v:.2f}` applied to a possibly-`NaN`, possibly-irrational
value. -/
def dispFixed2 : PyVal → DispVal
  | .nan => .nanStr
  | .num q => .fixed2 q
  | .root k => .fixed2Root k
  | .skewV n m3 m2 => .fixed2Skew n m3 m2

/-- One summary-table entry: display string plus raw value (`none` is
Python `None`). -/
structure StatEntry where
  display : DispVal
  raw : Option PyVal
  deriving DecidableEq

/-- The `'N/A'` / `None` pair of the short-input branch. -/
def naEntry : StatEntry := ⟨.na, none⟩

/-- The eleven metrics of the progress variant's summary dictionary
(`get_stats_dict`, lines 348-358 and 373-385). -/
structure SyncStats where
  totalTime : StatEntry
  totalBlocks : StatEntry
  overallAvg : StatEntry
  minS : StatEntry
  q1S : StatEntry
  meanS : StatEntry
  medianS : StatEntry
  q3S : StatEntry
  maxS : StatEntry
  stdS : StatEntry
  skewS : StatEntry
  deriving DecidableEq

/-- The all-`N/A` dictionary returned for degenerate inputs (lines
346-358). -/
def naStats : SyncStats :=
  ⟨naEntry, naEntry, naEntry, naEntry, naEntry, naEntry, naEntry, naEntry,
    naEntry, naEntry, naEntry⟩

/-- Minimum of a nonempty series (`0` for the empty series, unused there). -/
def seriesMin : List ℚ → ℚ
  | [] => 0
  | x :: xs => xs.foldl min x

/-- Maximum of a nonempty series (`0` for the empty series, unused there). -/
def seriesMax : List ℚ → ℚ
  | [] => 0
  | x :: xs => xs.foldl max x

/-- Mean of a series (`0` for the empty series via division by zero). -/
def seriesMean (l : List ℚ) : ℚ :=
  l.sum / l.length

/-- pandas `Series.quantile` with linear interpolation, as used by
`describe(percentiles=[.25, .75])`: sort ascending, index `p * (n - 1)`,
interpolate between the neighbouring order statistics. -/
def percentile (p : ℚ) (l : List ℚ) : ℚ :=
  let s := l.insertionSort (· ≤ ·)
  if s.length = 0 then 0
  else
    let idx : ℚ := p * ((s.length : ℚ) - 1)
    let i : ℕ := (⌊idx⌋).toNat
    let a := s.getD i 0
    let b := s.getD (i + 1) a
    a + (idx - (i : ℚ)) * (b - a)

/-- Sample standard deviation as `describe` reports it (`ddof = 1`):
`NaN` for fewer than two samples, otherwise the square root of
`Σ (x - mean)² / (n - 1)`. -/
def seriesStd (l : List ℚ) : PyVal :=
  if l.length < 2 then .nan
  else
    let m := seriesMean l
    .root ((l.map (fun x => (x - m) ^ 2)).sum / ((l.length : ℚ) - 1))

/-- pandas `Series.skew()` (Fisher-Pearson adjusted, `nanskew`): `NaN` for
fewer than three samples; `0` when the centered second moment sum is zero;
otherwise the value `n * sqrt (n - 1) / (n - 2) * m3 / m2 ^ (3 / 2)` kept
symbolically. -/
def pandasSkew (l : List ℚ) : PyVal :=
  if l.length < 3 then .nan
  else
    let m := seriesMean l
    let m2 := (l.map (fun x => (x - m) ^ 2)).sum
    let m3 := (l.map (fun x => (x - m) ^ 3)).sum
    if m2 = 0 then .num 0 else .skewV l.length m3 m2

/-- Line 384: `skewness if pd.notna(skewness) else 0.0`. -/
def denan : PyVal → PyVal
  | .nan => .num 0
  | v => v

/-- The main branch of the progress variant's `get_stats_dict` (lines
360-385): statistics of `Blocks_per_Second` excluding the first row
(`iloc[1:]`), a zero-filled fallback for an empty tail, and the
total/overall entries from the first and last rows of the time and height
columns. -/
def mainStats (bps ts hs : List ℚ) : SyncStats :=
  let s := bps.drop 1
  let stMin : PyVal := if s.isEmpty then .num 0 else .num (seriesMin s)
  let stQ1 : PyVal := if s.isEmpty then .num 0 else .num (percentile (1 / 4) s)
  let stMean : PyVal := if s.isEmpty then .num 0 else .num (seriesMean s)
  let stMed : PyVal := if s.isEmpty then .num 0 else .num (percentile (1 / 2) s)
  let stQ3 : PyVal := if s.isEmpty then .num 0 else .num (percentile (3 / 4) s)
  let stMax : PyVal := if s.isEmpty then .num 0 else .num (seriesMax s)
  let stStd : PyVal := if s.isEmpty then .num 0 else seriesStd s
  let skew : PyVal := if s.isEmpty then .num 0 else pandasSkew s
  let t := ts.getD (ts.length - 1) 0 - ts.getD 0 0
  let b := hs.getD (hs.length - 1) 0 - hs.getD 0 0
  let avg := if 0 < t then b / t else 0
  { totalTime := ⟨.secondsFmt t, some (.num t)⟩
    totalBlocks := ⟨.thousands b, some (.num b)⟩
    overallAvg := ⟨.fixed2 avg, some (.num avg)⟩
    minS := ⟨dispFixed2 stMin, some stMin⟩
    q1S := ⟨dispFixed2 stQ1, some stQ1⟩
    meanS := ⟨dispFixed2 stMean, some stMean⟩
    medianS := ⟨dispFixed2 stMed, some stMed⟩
    q3S := ⟨dispFixed2 stQ3, some stQ3⟩
    maxS := ⟨dispFixed2 stMax, some stMax⟩
    stdS := ⟨dispFixed2 stStd, some stStd⟩
    skewS := ⟨dispFixed2 skew, some (denan skew)⟩ }

/-- `get_stats_dict` of `sync_progress_analyzer.py` (lines 344-385).  The
guard (line 346) returns the all-`N/A` dictionary for an empty frame, a
frame without a `Blocks_per_Second` column, or fewer than two rows.  The
main branch reads `Accumulated_sync_in_progress_time[s]` and
`Block_height` unconditionally (lines 369-370): a frame lacking them would
raise `KeyError`, modelled by `Except.error`. -/
def get_stats_dict (df : DF) : Except String SyncStats :=
  if df.nrows = 0 ∨ df.bps = none ∨ df.nrows < 2 then .ok naStats
  else
    match df.bps, df.accS, df.height with
    | some bps, some ts, some hs => .ok (mainStats bps ts hs)
    | _, _, _ => .error ("KeyError")

/-- Evaluates a boolean check on the statistics dictionary, `false` when
the computation raised. -/
def statsOk (e : Except String SyncStats) (f : SyncStats → Bool) : Bool :=
  match e with
  | .ok s => f s
  | .error _ => false

/-- The `higher_is_better` policy values (lines 400-412). -/
inductive HIB where
  | higher : HIB
  | lower : HIB
  | closerToZero : HIB
  deriving DecidableEq

/-- The classification of lines 446-461: starting from `is_better = None`,
a nonzero difference is classified through the metric's policy; `none`
(Python `None`) means neutral / no colour.  `diff != 0` is Python float
inequality of `compare_raw - original_raw` against zero, which holds for
`NaN` differences; the sign tests on a `NaN` difference all fail. -/
def isBetter (origRaw compRaw : PyVal) (hib : Option HIB) : Option Bool :=
  if pyEq compRaw origRaw then none
  else
    match hib with
    | some .closerToZero =>
      if pyAbsLt compRaw origRaw then some true
      else if pyAbsLt origRaw compRaw then some false
      else none
    | some .higher =>
      if pyLt origRaw compRaw then some true
      else if pyLt compRaw origRaw then some false
      else none
    | some .lower =>
      if pyLt compRaw origRaw then some true
      else if pyLt origRaw compRaw then some false
      else none
    | none => none

/-- The delta annotation appended to a comparison cell.  When rendered it
shows the difference `compRaw - origRaw` formatted per metric kind,
coloured green (`better = true`) or red (`better = false`). -/
structure DeltaSpan where
  compRaw : PyVal
  origRaw : PyVal
  better : Bool
  deriving DecidableEq

/-- Lines 434-478 of `create_combined_summary_table`, restricted to the
delta annotation of one comparison cell: the difference is computed only
when both raw values are non-`None` (line 442), and the annotation is
appended only when a colour class was assigned (lines 463-466 and 477),
i.e. only when `is_better` is `True` or `False`. -/
def compareDelta (origE compE : StatEntry) (hib : Option HIB) : Option DeltaSpan :=
  match origE.raw, compE.raw with
  | some o, some c =>
    match isBetter o c hib with
    | some b => some ⟨c, o, b⟩
    | none => none
  | _, _ => none

/-- Metric keys of the progress variant's summary dictionary. -/
inductive Metric where
  | totalTime | totalBlocks | overallAvg | minS | q1S | meanS | medianS
  | q3S | maxS | stdS | skewS
  deriving DecidableEq

/-- Dictionary lookup `stats[metric]`. -/
def statsGet (s : SyncStats) : Metric → StatEntry
  | .totalTime => s.totalTime
  | .totalBlocks => s.totalBlocks
  | .overallAvg => s.overallAvg
  | .minS => s.minS
  | .q1S => s.q1S
  | .meanS => s.meanS
  | .medianS => s.medianS
  | .q3S => s.q3S
  | .maxS => s.maxS
  | .stdS => s.stdS
  | .skewS => s.skewS

/-- The `higher_is_better` dictionary of the progress variant (lines
400-412); every one of the eleven metrics is listed. -/
def progressHib : Metric → Option HIB
  | .totalTime => some .lower
  | .totalBlocks => some .higher
  | .overallAvg => some .higher
  | .minS => some .higher
  | .q1S => some .higher
  | .meanS => some .higher
  | .medianS => some .higher
  | .q3S => some .higher
  | .maxS => some .higher
  | .stdS => some .lower
  | .skewS => some .closerToZero

/-- The delta annotation the rendered summary table carries for one metric
row, for two statistics dictionaries (original, comparison). -/
def summaryRowDelta (so sc : SyncStats) (m : Metric) : Option DeltaSpan :=
  compareDelta (statsGet so m) (statsGet sc m) (progressHib m)

/-! ### Lemmas about the `Blocks_per_Second` computation -/

/-- Pointwise form of the quotient pipeline on the diff tails: missing
values only arise from the zero-replacement, so after `fillna(0)` each
position holds `0` on a zero time delta and the plain quotient otherwise. -/
theorem bpsAux (P : List ℚ) : ∀ Q : List ℚ,
    (List.zipWith divNA (P.map some) (replaceZeroNA (Q.map some))).map (fun o => o.getD 0) =
      List.zipWith (fun dh dt => if dt = 0 then 0 else dh / dt) P Q := by
  induction P with
  | nil => intro Q; simp
  | cons p P ih =>
    intro Q
    cases Q with
    | nil => simp [replaceZeroNA]
    | cons q Q =>
      by_cases hq : q = 0 <;>
        simp [replaceZeroNA, divNA, hq, ← ih Q]

/-- `computeBps` on nonempty columns: a leading `0` (the undefined first
row, filled by `fillna(0)`), then the guarded quotients of the diff
tails. -/
theorem computeBps_cons (a b : ℚ) (hs ts : List ℚ) :
    computeBps (a :: hs) (b :: ts) =
      0 :: List.zipWith (fun dh dt => if dt = 0 then 0 else dh / dt)
        (diffPairs a hs) (diffPairs b ts) := by
  simp only [computeBps, seriesDiff]
  rw [show replaceZeroNA (none :: (diffPairs b ts).map some) =
        none :: replaceZeroNA ((diffPairs b ts).map some) from rfl]
  simp only [List.zipWith_cons_cons, List.map_cons]
  rw [bpsAux]
  rfl

theorem diffPairs_length (p : ℚ) (l : List ℚ) : (diffPairs p l).length = l.length := by
  induction l generalizing p with
  | nil => rfl
  | cons x xs ih => simp [diffPairs, ih]

theorem diffPairs_getD (l : List ℚ) : ∀ (p : ℚ) (j : ℕ), j < l.length →
    (diffPairs p l).getD j 0 = l.getD j 0 - (p :: l).getD j 0 := by
  induction l with
  | nil => intro p j h; simp at h
  | cons x xs ih =>
    intro p j h
    cases j with
    | zero => simp [diffPairs]
    | succ j =>
      have hj : j < xs.length := by simpa using h
      simpa [diffPairs] using ih x j hj

theorem zipIf_getD (P : List ℚ) : ∀ (Q : List ℚ) (j : ℕ), j < P.length → j < Q.length →
    (List.zipWith (fun dh dt => if dt = 0 then 0 else dh / dt) P Q).getD j 0 =
      if Q.getD j 0 = 0 then 0 else P.getD j 0 / Q.getD j 0 := by
  induction P with
  | nil => intro Q j h; simp at h
  | cons p P ih =>
    intro Q j hP hQ
    cases Q with
    | nil => simp at hQ
    | cons q Q =>
      cases j with
      | zero => simp
      | succ j =>
        have h1 : j < P.length := by simpa using hP
        have h2 : j < Q.length := by simpa using hQ
        simpa using ih Q j h1 h2

/-- Value of `Blocks_per_Second` at a row `i = j + 1` with a predecessor:
`0` on an exactly-zero time delta, the quotient of the deltas otherwise. -/
theorem computeBps_getD_succ (a b : ℚ) (hs ts : List ℚ)
    (hlen : hs.length = ts.length) (j : ℕ) (hj : j < hs.length) :
    (computeBps (a :: hs) (b :: ts)).getD (j + 1) 0 =
      if (b :: ts).getD (j + 1) 0 - (b :: ts).getD j 0 = 0 then 0
      else ((a :: hs).getD (j + 1) 0 - (a :: hs).getD j 0) /
        ((b :: ts).getD (j + 1) 0 - (b :: ts).getD j 0) := by
  have hj2 : j < ts.length := hlen ▸ hj
  rw [computeBps_cons]
  have hz := zipIf_getD (diffPairs a hs) (diffPairs b ts) j
    (by rw [diffPairs_length]; exact hj) (by rw [diffPairs_length]; exact hj2)
  simp only [List.getD_cons_succ]
  rw [hz, diffPairs_getD hs a j hj, diffPairs_getD ts b j hj2]

theorem computeBps_cons_length (a b : ℚ) (hs ts : List ℚ) :
    (computeBps (a :: hs) (b :: ts)).length = min hs.length ts.length + 1 := by
  rw [computeBps_cons]
  simp [diffPairs_length]

/-! ### Lemmas about frames and enrichment -/

theorem colOk_some {α : Type} {c : Option (List α)} {n : ℕ} {l : List α}
    (h : colOk c n = true) (hc : c = some l) : l.length = n := by
  subst hc
  simpa [colOk] using h

theorem wf_height {df : DF} (hwf : df.wf = true) {l : List ℚ}
    (h : df.height = some l) : l.length = df.nrows := by
  simp only [DF.wf, Bool.and_eq_true] at hwf
  exact colOk_some hwf.1.1.1.1.1 h

theorem wf_accS {df : DF} (hwf : df.wf = true) {l : List ℚ}
    (h : df.accS = some l) : l.length = df.nrows := by
  simp only [DF.wf, Bool.and_eq_true] at hwf
  exact colOk_some hwf.1.1.1.1.2 h

theorem wf_accMs {df : DF} (hwf : df.wf = true) {l : List ℚ}
    (h : df.accMs = some l) : l.length = df.nrows := by
  simp only [DF.wf, Bool.and_eq_true] at hwf
  exact colOk_some hwf.1.1.1.2 h

theorem wf_accTotalMs {df : DF} (hwf : df.wf = true) {l : List ℚ}
    (h : df.accTotalMs = some l) : l.length = df.nrows := by
  simp only [DF.wf, Bool.and_eq_true] at hwf
  exact colOk_some hwf.1.1.2 h

theorem wf_bps {df : DF} (hwf : df.wf = true) {l : List ℚ}
    (h : df.bps = some l) : l.length = df.nrows := by
  simp only [DF.wf, Bool.and_eq_true] at hwf
  exact colOk_some hwf.2 h

theorem resolveTimeProgress_length {df : DF} (hwf : df.wf = true) {ts : List ℚ}
    (ht : resolveTimeProgress df = some ts) : ts.length = df.nrows := by
  unfold resolveTimeProgress at ht
  cases hS : df.accS with
  | some l =>
    rw [hS] at ht
    obtain rfl : l = ts := by injection ht
    exact wf_accS hwf hS
  | none =>
    rw [hS] at ht
    cases hM : df.accMs with
    | some ms =>
      rw [hM] at ht
      obtain rfl : ms.map (· / 1000) = ts := by injection ht
      simpa using wf_accMs hwf hM
    | none => rw [hM] at ht; cases ht

theorem resolveTimeMeasure_length {df : DF} (hwf : df.wf = true) {ts : List ℚ}
    (ht : resolveTimeMeasure df = some ts) : ts.length = df.nrows := by
  unfold resolveTimeMeasure at ht
  cases hM : df.accMs with
  | some ms =>
    rw [hM] at ht
    obtain rfl : ms.map (· / 1000) = ts := by injection ht
    simpa using wf_accMs hwf hM
  | none =>
    rw [hM] at ht
    cases hS : df.accS with
    | some l =>
      rw [hS] at ht
      obtain rfl : l = ts := by injection ht
      exact wf_accS hwf hS
    | none =>
      rw [hS] at ht
      cases hT : df.accTotalMs with
      | some ms2 =>
        rw [hT] at ht
        obtain rfl : ms2.map (· / 1000) = ts := by injection ht
        simpa using wf_accTotalMs hwf hT
      | none => rw [hT] at ht; cases ht

theorem enrichBps_bps {df : DF} {hs : List ℚ} (hh : df.height = some hs)
    (ts : List ℚ) : (enrichBps df ts).bps = some (computeBps hs ts) := by
  simp [enrichBps, hh]

theorem enrichBps_accS (df : DF) (ts : List ℚ) :
    (enrichBps df ts).accS = df.accS := by
  cases hh : df.height <;> simp [enrichBps, hh]

theorem enrichBps_height (df : DF) (ts : List ℚ) :
    (enrichBps df ts).height = df.height := by
  cases hh : df.height <;> simp [enrichBps, hh]

theorem enrichBps_of_height_none {df : DF} (hh : df.height = none)
    (ts : List ℚ) : enrichBps df ts = df := by
  simp [enrichBps, hh]

theorem process_progress_bps {df : DF} {hs ts : List ℚ} (h0 : df.nrows ≠ 0)
    (hh : df.height = some hs) (ht : resolveTimeProgress df = some ts) :
    (process_progress_df df).bps = some (computeBps hs ts) := by
  obtain ⟨n, hcol, scol, mcol, tcol, fcol, bcol⟩ := df
  unfold resolveTimeProgress at ht
  unfold process_progress_df
  rw [if_neg h0]
  cases scol with
  | some l =>
    obtain rfl : l = ts := by injection ht
    exact enrichBps_bps hh _
  | none =>
    cases mcol with
    | some ms =>
      obtain rfl : ms.map (· / 1000) = ts := by injection ht
      dsimp only
      exact @enrichBps_bps ⟨n, hcol, some (ms.map (· / 1000)), some ms, tcol, fcol, bcol⟩ hs hh _
    | none => exact Option.noConfusion ht

theorem process_measurement_bps {df : DF} {hs ts : List ℚ} (h0 : df.nrows ≠ 0)
    (hh : df.height = some hs) (ht : resolveTimeMeasure df = some ts) :
    (process_measurement_df df).bps = some (computeBps hs ts) := by
  obtain ⟨n, hcol, scol, mcol, tcol, fcol, bcol⟩ := df
  unfold resolveTimeMeasure at ht
  unfold process_measurement_df
  rw [if_neg h0]
  cases mcol with
  | some ms =>
    obtain rfl : ms.map (· / 1000) = ts := by injection ht
    dsimp only
    exact @enrichBps_bps ⟨n, hcol, some (ms.map (· / 1000)), some ms, tcol, fcol, bcol⟩ hs hh _
  | none =>
    cases scol with
    | some l =>
      obtain rfl : l = ts := by injection ht
      exact enrichBps_bps hh _
    | none =>
      cases tcol with
      | some ms2 =>
        obtain rfl : ms2.map (· / 1000) = ts := by injection ht
        dsimp only
        exact @enrichBps_bps ⟨n, hcol, some (ms2.map (· / 1000)), none, some ms2, fcol, bcol⟩ hs hh _
      | none => exact Option.noConfusion ht

/-- Adjacent monotonicity, `getD` form. -/
theorem chain_le_getD : ∀ (l : List ℚ), List.Chain' (· ≤ ·) l →
    ∀ j, j + 1 < l.length → l.getD j 0 ≤ l.getD (j + 1) 0
  | [], _, j, hj => by simp at hj
  | [_], _, j, hj => by simp at hj
  | _ :: b :: t, hl, 0, _ => by
    simpa using (List.chain'_cons.mp hl).1
  | a :: b :: t, hl, j + 1, hj => by
    simpa using chain_le_getD (b :: t) (List.chain'_cons.mp hl).2 j (by simpa using hj)

/-! ### Lemmas about the idealized value comparisons -/

theorem sq_lt_sq_iff_abs (a b : ℚ) : a ^ 2 < b ^ 2 ↔ |a| < |b| := by
  rw [← sq_abs a, ← sq_abs b]
  exact pow_lt_pow_iff_left₀ (abs_nonneg a) (abs_nonneg b) (by norm_num)

theorem pyEq_num (a b : ℚ) : pyEq (.num a) (.num b) = true ↔ a = b := by
  constructor
  · intro h
    simp only [pyEq, PyVal.sgn, PyVal.sq, Bool.and_eq_true, beq_iff_eq] at h
    obtain ⟨hs, hq⟩ := h
    have habs : |a| = |b| := by
      have h1 : ¬ |a| < |b| := by rw [← sq_lt_sq_iff_abs, hq]; exact lt_irrefl _
      have h2 : ¬ |b| < |a| := by rw [← sq_lt_sq_iff_abs, hq]; exact lt_irrefl _
      exact le_antisymm (not_lt.mp h2) (not_lt.mp h1)
    rcases abs_eq_abs.mp habs with h | h
    · exact h
    · subst h
      rcases lt_trichotomy b 0 with hb | hb | hb
      · exfalso
        rw [if_pos (by linarith : (0 : ℚ) < -b),
          if_neg (by linarith : ¬ (0 : ℚ) < b), if_pos hb] at hs
        exact absurd hs (by decide)
      · rw [hb]; ring
      · exfalso
        rw [if_neg (by linarith : ¬ (0 : ℚ) < -b),
          if_pos (by linarith : -b < (0 : ℚ)), if_pos hb] at hs
        exact absurd hs (by decide)
  · rintro rfl
    simp [pyEq, PyVal.sgn, PyVal.sq]

theorem pyLt_num (a b : ℚ) : pyLt (.num a) (.num b) = true ↔ a < b := by
  simp only [pyLt, PyVal.sgn, PyVal.sq]
  rcases lt_trichotomy a 0 with ha | rfl | ha
  · rcases lt_trichotomy b 0 with hb | rfl | hb
    · rw [if_neg (lt_asymm ha), if_pos ha, if_neg (lt_asymm hb), if_pos hb]
      norm_num [sq_lt_sq_iff_abs, abs_of_neg ha, abs_of_neg hb]
    · rw [if_neg (lt_asymm ha), if_pos ha]
      norm_num [ha]
    · rw [if_neg (lt_asymm ha), if_pos ha, if_pos hb]
      norm_num
      linarith
  · rcases lt_trichotomy b 0 with hb | rfl | hb
    · rw [if_neg (lt_asymm hb), if_pos hb]
      norm_num [hb.asymm]
    · norm_num
    · rw [if_pos hb]
      norm_num [hb]
  · rcases lt_trichotomy b 0 with hb | rfl | hb
    · rw [if_pos ha, if_neg (lt_asymm hb), if_pos hb]
      norm_num
      linarith
    · rw [if_pos ha]
      norm_num [ha.asymm]
    · rw [if_pos ha, if_pos hb]
      norm_num [sq_lt_sq_iff_abs, abs_of_pos ha, abs_of_pos hb]

theorem pyAbsLt_num (a b : ℚ) : pyAbsLt (.num a) (.num b) = true ↔ |a| < |b| := by
  simp [pyAbsLt, PyVal.sgn, PyVal.sq, sq_lt_sq_iff_abs]

/-- A value never differs from itself: either the Python equality test
succeeds (non-`NaN`), or every ordered comparison on the `NaN` fails; in
both cases the classification stays `None`. -/
theorem isBetter_self (q : PyVal) (hib : Option HIB) : isBetter q q hib = none := by
  rcases hib with _ | h
  · cases q <;> simp [isBetter, pyEq, pyLt, pyAbsLt, PyVal.sgn]
  · cases h <;> cases q <;> simp [isBetter, pyEq, pyLt, pyAbsLt, PyVal.sgn]

/-! ### Lemmas about list slicing for the statistics -/

theorem map_getD_range (l : List ℚ) :
    (List.range l.length).map (fun i => l.getD i 0) = l := by
  induction l with
  | nil => rfl
  | cons a t ih =>
    rw [List.length_cons, List.range_succ_eq_map, List.map_cons, List.map_map]
    have hcomp : ((fun i => (a :: t).getD i 0) ∘ Nat.succ) = fun i => t.getD i 0 := by
      funext i
      rfl
    rw [hcomp, ih]
    rfl

/-- The manual slice `rows 1 .. N-1` of an `N`-entry column is exactly
`iloc[1:]`. -/
theorem manual_slice_eq_drop (l : List ℚ) :
    (List.range (l.length - 1)).map (fun i => l.getD (i + 1) 0) = l.drop 1 := by
  cases l with
  | nil => rfl
  | cons a t =>
    have : (List.range t.length).map (fun i => (a :: t).getD (i + 1) 0) =
        (List.range t.length).map (fun i => t.getD i 0) := by
      exact List.map_congr_left (fun i _ => rfl)
    simpa [this] using map_getD_range t

/-! ### Claim theorems -/

/-- C1: for every frame on which row enrichment runs (a resolved
elapsed-time column and `Block_height` both present, nonempty frame), the
derived `Blocks_per_Second` column is the total rational-valued
`computeBps` — so no entry is ever `NaN` or infinite — whose first entry
(undefined deltas) is exactly `0`, whose entry at any later row with an
exactly-zero time delta is exactly `0`, and whose entry at every other row
is the height delta divided by the time delta.  Stated for both the
progress-variant and the measurement-variant enrichment. -/
theorem C1_zero_delta_yields_zero (df : DF) (hs ts : List ℚ)
    (h0 : df.nrows ≠ 0) (hh : df.height = some hs) :
    (resolveTimeProgress df = some ts →
      (process_progress_df df).bps = some (computeBps hs ts)) ∧
    (resolveTimeMeasure df = some ts →
      (process_measurement_df df).bps = some (computeBps hs ts)) ∧
    (hs.length = ts.length →
      (computeBps hs ts).getD 0 0 = 0 ∧
      ∀ i, 0 < i → i < hs.length →
        ((ts.getD i 0 - ts.getD (i - 1) 0 = 0 → (computeBps hs ts).getD i 0 = 0) ∧
         (ts.getD i 0 - ts.getD (i - 1) 0 ≠ 0 →
           (computeBps hs ts).getD i 0 =
             (hs.getD i 0 - hs.getD (i - 1) 0) / (ts.getD i 0 - ts.getD (i - 1) 0)))) := by
  refine ⟨fun ht => process_progress_bps h0 hh ht,
    fun ht => process_measurement_bps h0 hh ht, fun hlen => ?_⟩
  cases hs with
  | nil =>
    refine ⟨by simp [computeBps, seriesDiff], ?_⟩
    intro i _ hi
    simp at hi
  | cons a hs2 =>
    cases ts with
    | nil => simp at hlen
    | cons b ts2 =>
      have hlen2 : hs2.length = ts2.length := by simpa using hlen
      constructor
      · rw [computeBps_cons]
        rfl
      · intro i hi0 hilen
        obtain ⟨j, rfl⟩ : ∃ j, i = j + 1 := ⟨i - 1, by omega⟩
        have hj : j < hs2.length := by
          simp only [List.length_cons] at hilen
          omega
        have hmain := computeBps_getD_succ a b hs2 ts2 hlen2 j hj
        rw [Nat.add_sub_cancel]
        constructor
        · intro hz
          rw [hmain, if_pos hz]
        · intro hnz
          rw [hmain, if_neg hnz]

/-- C1 witness: the theorem applied to a concrete well-formed 2-row frame
with seconds column `[0, 1]` and heights `[0, 10]`. -/
theorem C1_zero_delta_yields_zero_witness :
    (process_progress_df ⟨2, some [0, 10], some [0, 1], none, none, none, none⟩).bps
      = some [0, 10] :=
  ((C1_zero_delta_yields_zero ⟨2, some [0, 10], some [0, 1], none, none, none, none⟩
      [0, 10] [0, 1] (by decide) rfl).1 rfl).trans
    (by norm_num [computeBps, seriesDiff, diffPairs, replaceZeroNA, divNA])

/-- C2: the end-to-end scenario: heights `[0, 10, 20, 30, 40]` with
millisecond column `[0, 1000, 3000, 4000, 4000]` enrich to
`Blocks_per_Second = [0, 10, 5, 10, 0]` (the trailing zero from the
exactly-zero time delta), and the summary statistics report
`Total Blocks Synced = 40` and
`Overall Average Sync Speed = 40 / 4 = 10.0`. -/
theorem C2_end_to_end :
    (process_progress_df ⟨5, some [0, 10, 20, 30, 40], none,
        some [0, 1000, 3000, 4000, 4000], none, none, none⟩).bps
      = some [0, 10, 5, 10, 0] ∧
    statsOk (get_stats_dict (process_progress_df ⟨5, some [0, 10, 20, 30, 40], none,
        some [0, 1000, 3000, 4000, 4000], none, none, none⟩))
      (fun S => (S.totalBlocks.raw == some (PyVal.num 40)) &&
        (S.overallAvg.raw == some (PyVal.num 10))) = true := by
  have h1 : process_progress_df ⟨5, some [0, 10, 20, 30, 40], none,
        some [0, 1000, 3000, 4000, 4000], none, none, none⟩ =
      ⟨5, some [0, 10, 20, 30, 40], some [0, 1, 3, 4, 4], some [0, 1000, 3000, 4000, 4000],
        none, some ([0, 1, 3, 4, 4].map format_seconds), some [0, 10, 5, 10, 0]⟩ := by
    norm_num [process_progress_df, enrichBps, computeBps, seriesDiff, diffPairs,
      replaceZeroNA, divNA]
  refine ⟨by rw [h1], ?_⟩
  rw [h1]
  rw [show get_stats_dict ⟨5, some [0, 10, 20, 30, 40], some [0, 1, 3, 4, 4],
      some [0, 1000, 3000, 4000, 4000], none, some ([0, 1, 3, 4, 4].map format_seconds),
      some [0, 10, 5, 10, 0]⟩ =
      Except.ok (mainStats [0, 10, 5, 10, 0] [0, 1, 3, 4, 4] [0, 10, 20, 30, 40]) from by
    rw [get_stats_dict, if_neg (by simp)]]
  norm_num [statsOk, mainStats]

/-- C10: on a frame whose `Block_height` column and resolved elapsed-time
column are both monotonically non-decreasing, every entry of the derived
`Blocks_per_Second` column is non-negative. -/
theorem C10_monotone_nonneg (df : DF) (hs ts l : List ℚ)
    (h0 : df.nrows ≠ 0) (hlen : hs.length = ts.length)
    (hh : df.height = some hs) (ht : resolveTimeProgress df = some ts)
    (hmh : List.Chain' (· ≤ ·) hs) (hmt : List.Chain' (· ≤ ·) ts)
    (hl : (process_progress_df df).bps = some l) :
    ∀ q ∈ l, 0 ≤ q := by
  have hbps := process_progress_bps h0 hh ht
  rw [hl] at hbps
  obtain rfl : l = computeBps hs ts := by injection hbps
  cases hs with
  | nil =>
    intro q hq
    simp [computeBps, seriesDiff] at hq
  | cons a hs2 =>
    cases ts with
    | nil => simp at hlen
    | cons b ts2 =>
      have hlen2 : hs2.length = ts2.length := by simpa using hlen
      intro q hq
      rw [computeBps_cons] at hq
      rcases List.mem_cons.mp hq with rfl | hq2
      · exact le_refl 0
      · obtain ⟨j, hjlen, hget⟩ := List.getElem_of_mem hq2
        have hjh : j < hs2.length := by
          rw [List.length_zipWith, diffPairs_length, diffPairs_length] at hjlen
          omega
        have hjt : j < ts2.length := hlen2 ▸ hjh
        have hq3 : q = if ts2.getD j 0 - (b :: ts2).getD j 0 = 0 then 0
            else (hs2.getD j 0 - (a :: hs2).getD j 0) /
              (ts2.getD j 0 - (b :: ts2).getD j 0) := by
          have hgd := zipIf_getD (diffPairs a hs2) (diffPairs b ts2) j
            (by rw [diffPairs_length]; exact hjh) (by rw [diffPairs_length]; exact hjt)
          rw [List.getD_eq_getElem?_getD, List.getElem?_eq_getElem hjlen, hget,
            diffPairs_getD hs2 a j hjh, diffPairs_getD ts2 b j hjt] at hgd
          rw [Option.getD_some] at hgd
          exact hgd
        have hdh : 0 ≤ hs2.getD j 0 - (a :: hs2).getD j 0 := by
          have := chain_le_getD (a :: hs2) hmh j (by simpa using Nat.succ_lt_succ hjh)
          simp only [List.getD_cons_succ] at this
          linarith
        have hdt : 0 ≤ ts2.getD j 0 - (b :: ts2).getD j 0 := by
          have := chain_le_getD (b :: ts2) hmt j (by simpa using Nat.succ_lt_succ hjt)
          simp only [List.getD_cons_succ] at this
          linarith
        rw [hq3]
        split
        · exact le_refl 0
        · exact div_nonneg hdh hdt

/-- C10 witness: the theorem applied to a concrete monotone 2-row frame;
its `Blocks_per_Second` entry `10` is non-negative. -/
theorem C10_monotone_nonneg_witness : (0 : ℚ) ≤ 10 :=
  C10_monotone_nonneg ⟨2, some [0, 10], some [0, 1], none, none, none, none⟩
    [0, 10] [0, 1] [0, 10] (by decide) (by decide) rfl rfl
    (by norm_num [List.chain'_cons]) (by norm_num [List.chain'_cons])
    (by norm_num [process_progress_df, enrichBps, computeBps, seriesDiff, diffPairs,
      replaceZeroNA, divNA])
    10 (by norm_num)

/-- C3 counterexample: on a 2-row frame carrying heights `[0, 10]`, a
seconds column `[0, 5]` *and* a milliseconds column `[0, 2000]`, the
measurement variant does not prefer the seconds column: it overwrites it
with `ms / 1000 = [0, 2]` and computes `Blocks_per_Second = [0, 5]` from
it, while seconds-preference (what the claim states) would have produced
`computeBps [0, 10] [0, 5] = [0, 2]`. -/
theorem C3_counterexample :
    (process_measurement_df
        ⟨2, some [0, 10], some [0, 5], some [0, 2000], none, none, none⟩).accS
      = some [0, 2] ∧
    (process_measurement_df
        ⟨2, some [0, 10], some [0, 5], some [0, 2000], none, none, none⟩).bps
      = some [0, 5] ∧
    computeBps [0, 10] [0, 5] = [0, 2] ∧
    ¬ ((process_measurement_df
        ⟨2, some [0, 10], some [0, 5], some [0, 2000], none, none, none⟩).bps
      = some (computeBps [0, 10] [0, 5])) := by
  have h1 : (process_measurement_df
      ⟨2, some [0, 10], some [0, 5], some [0, 2000], none, none, none⟩).accS
      = some [0, 2] := by
    norm_num [process_measurement_df, enrichBps]
  have h2 : (process_measurement_df
      ⟨2, some [0, 10], some [0, 5], some [0, 2000], none, none, none⟩).bps
      = some [0, 5] := by
    norm_num [process_measurement_df, enrichBps, computeBps, seriesDiff, diffPairs,
      replaceZeroNA, divNA]
  have h3 : computeBps [0, 10] [0, 5] = [0, 2] := by
    norm_num [computeBps, seriesDiff, diffPairs, replaceZeroNA, divNA]
  refine ⟨h1, h2, h3, ?_⟩
  rw [h2, h3]
  intro h
  have := Option.some.inj h
  simp at this

/-- C3 amended: the progress variant prefers the seconds column and only
converts the milliseconds column when no seconds column exists; the
measurement variant instead prefers the milliseconds column (overwriting
the seconds column with `ms / 1000`), falls back to the seconds column,
then to the `Accumulated_sync_time[ms]` column divided by 1000; each
variant returns the frame unmodified only when none of its candidate time
columns is present. -/
theorem C3_amended (df : DF) :
    (∀ ts, df.accS = some ts → resolveTimeProgress df = some ts) ∧
    (∀ ms, df.accS = none → df.accMs = some ms →
      resolveTimeProgress df = some (ms.map (· / 1000))) ∧
    (df.accS = none → df.accMs = none → process_progress_df df = df) ∧
    (∀ ms, df.accMs = some ms → resolveTimeMeasure df = some (ms.map (· / 1000)) ∧
      (df.nrows ≠ 0 → (process_measurement_df df).accS = some (ms.map (· / 1000)))) ∧
    (∀ ts, df.accMs = none → df.accS = some ts → resolveTimeMeasure df = some ts) ∧
    (∀ ms2, df.accMs = none → df.accS = none → df.accTotalMs = some ms2 →
      resolveTimeMeasure df = some (ms2.map (· / 1000))) ∧
    (df.accMs = none → df.accS = none → df.accTotalMs = none →
      process_measurement_df df = df) := by
  obtain ⟨n, hcol, scol, mcol, tcol, fcol, bcol⟩ := df
  refine ⟨?_, ?_, ?_, ?_, ?_, ?_, ?_⟩
  · intro ts hts
    cases hts
    rfl
  · intro ms hs hm
    cases hs
    cases hm
    rfl
  · intro hs hm
    cases hs
    cases hm
    simp [process_progress_df]
  · intro ms hm
    cases hm
    refine ⟨rfl, fun hn => ?_⟩
    unfold process_measurement_df
    rw [if_neg hn]
    dsimp only
    rw [enrichBps_accS]
  · intro ts hm hs
    cases hm
    cases hs
    rfl
  · intro ms2 hm hs ht
    cases hm
    cases hs
    cases ht
    rfl
  · intro hm hs ht
    cases hm
    cases hs
    cases ht
    simp [process_measurement_df]

/-- C3 amended witness: the amended theorem applied to the concrete frame
of the counterexample, showing the measurement variant resolves the
milliseconds column. -/
theorem C3_amended_witness :
    (process_measurement_df
        ⟨2, some [0, 10], some [0, 5], some [0, 2000], none, none, none⟩).accS
      = some ([0, 2000].map (· / 1000)) :=
  ((C3_amended ⟨2, some [0, 10], some [0, 5], some [0, 2000], none, none, none⟩).2.2.2.1
    [0, 2000] rfl).2 (by decide)

/-- C4 counterexample: a frame with a milliseconds column and no
`Block_height` column is *not* returned unmodified by row enrichment — the
converted seconds column is written before the `Block_height` check — so
the claimed same-unmodified-return behaviour fails when only the
milliseconds time column is present. -/
theorem C4_counterexample :
    (process_progress_df ⟨2, none, none, some [0, 2000], none, none, none⟩).accS
      = some [0, 2] ∧
    process_progress_df ⟨2, none, none, some [0, 2000], none, none, none⟩ ≠
      ⟨2, none, none, some [0, 2000], none, none, none⟩ := by
  have h : (process_progress_df ⟨2, none, none, some [0, 2000], none, none, none⟩).accS
      = some [0, 2] := by
    norm_num [process_progress_df, enrichBps]
  refine ⟨h, fun he => ?_⟩
  rw [he] at h
  exact Option.noConfusion h

/-- C4 amended: on a frame lacking `Block_height`, row enrichment adds no
derived column (`Blocks_per_Second` and `SyncTime_Formatted` are
unchanged) and the height stays absent; the frame is returned fully
unmodified when a seconds column is present (or no time column resolves,
or the frame is empty); but when the resolution converts a milliseconds
column (progress variant: seconds absent and milliseconds present;
measurement variant: milliseconds present, or the fallback column used),
the converted seconds column is added — the only modification. -/
theorem C4_amended (df : DF) (hh : df.height = none) :
    (process_progress_df df).bps = df.bps ∧
    (process_progress_df df).syncFmt = df.syncFmt ∧
    (process_progress_df df).height = none ∧
    (process_measurement_df df).bps = df.bps ∧
    (process_measurement_df df).syncFmt = df.syncFmt ∧
    (∀ ts, df.accS = some ts → process_progress_df df = df) ∧
    (df.accS = none → df.accMs = none → process_progress_df df = df) ∧
    (∀ ms, df.nrows ≠ 0 → df.accS = none → df.accMs = some ms →
      process_progress_df df = { df with accS := some (ms.map (· / 1000)) }) ∧
    (∀ ts, df.accMs = none → df.accS = some ts → process_measurement_df df = df) ∧
    (∀ ms, df.nrows ≠ 0 → df.accMs = some ms →
      process_measurement_df df = { df with accS := some (ms.map (· / 1000)) }) ∧
    (∀ ms2, df.nrows ≠ 0 → df.accMs = none → df.accS = none → df.accTotalMs = some ms2 →
      process_measurement_df df = { df with accS := some (ms2.map (· / 1000)) }) ∧
    (df.accMs = none → df.accS = none → df.accTotalMs = none →
      process_measurement_df df = df) := by
  obtain ⟨n, hcol, scol, mcol, tcol, fcol, bcol⟩ := df
  obtain rfl : hcol = none := hh
  rcases Nat.eq_zero_or_pos n with rfl | hn
  · simp [process_progress_df, process_measurement_df]
  · have hn2 : ¬ n = 0 := by omega
    cases scol <;> cases mcol <;> cases tcol <;>
      simp [process_progress_df, process_measurement_df, enrichBps, hn2]

/-- C4 amended witness: a frame with a seconds column and no
`Block_height` is returned fully unmodified. -/
theorem C4_amended_witness :
    process_progress_df ⟨2, none, some [0, 3], none, none, none, none⟩ =
      ⟨2, none, some [0, 3], none, none, none, none⟩ :=
  (C4_amended ⟨2, none, some [0, 3], none, none, none, none⟩ rfl).2.2.2.2.2.1 [0, 3] rfl

/-- C5: for non-null numeric raw values, the rendered span records the
pair (comparison, original) whose displayed difference is
`comparison.raw − original.raw`, and the classification follows the
policy: under `higher_is_better = true` a positive delta is an improvement
and a negative one a regression; under `false` the classification is
reversed; under `closer_to_zero` a strictly smaller absolute raw value is
an improvement; a delta of exactly zero is neutral (`None`, no colour). -/
theorem C5_delta_sign_convention (o c : ℚ) (hib : Option HIB) :
    (∀ d1 d2 : DispVal,
      compareDelta ⟨d1, some (.num o)⟩ ⟨d2, some (.num c)⟩ hib =
        (isBetter (.num o) (.num c) hib).map (fun b => ⟨.num c, .num o, b⟩)) ∧
    (c - o = 0 → isBetter (.num o) (.num c) hib = none) ∧
    (hib = some .higher → (0 < c - o → isBetter (.num o) (.num c) hib = some true) ∧
      (c - o < 0 → isBetter (.num o) (.num c) hib = some false)) ∧
    (hib = some .lower → (c - o < 0 → isBetter (.num o) (.num c) hib = some true) ∧
      (0 < c - o → isBetter (.num o) (.num c) hib = some false)) ∧
    (hib = some .closerToZero →
      (|c| < |o| → isBetter (.num o) (.num c) hib = some true) ∧
      (|o| < |c| → isBetter (.num o) (.num c) hib = some false)) := by
  refine ⟨?_, ?_, ?_, ?_, ?_⟩
  · intro d1 d2
    cases h : isBetter (.num o) (.num c) hib <;> simp [compareDelta, h]
  · intro h
    have heq : c = o := by linarith
    simp only [isBetter]
    rw [if_pos ((pyEq_num c o).mpr heq)]
  · rintro rfl
    have key : ∀ a b : ℚ, a < b → isBetter (.num a) (.num b) (some .higher) = some true := by
      intro a b hab
      have hne : pyEq (PyVal.num b) (PyVal.num a) = false := by
        rw [Bool.eq_false_iff]
        intro hq
        exact absurd ((pyEq_num b a).mp hq) (by linarith)
      simp [isBetter, hne, (pyLt_num a b).mpr hab]
    constructor
    · intro h
      exact key o c (by linarith)
    · intro h
      have hne : pyEq (PyVal.num c) (PyVal.num o) = false := by
        rw [Bool.eq_false_iff]
        intro hq
        exact absurd ((pyEq_num c o).mp hq) (by linarith)
      have h1 : pyLt (PyVal.num o) (PyVal.num c) = false := by
        rw [Bool.eq_false_iff]
        intro hq
        exact absurd ((pyLt_num o c).mp hq) (by linarith)
      simp [isBetter, hne, h1, (pyLt_num c o).mpr (by linarith : c < o)]
  · rintro rfl
    constructor
    · intro h
      have hne : pyEq (PyVal.num c) (PyVal.num o) = false := by
        rw [Bool.eq_false_iff]
        intro hq
        exact absurd ((pyEq_num c o).mp hq) (by linarith)
      simp [isBetter, hne, (pyLt_num c o).mpr (by linarith : c < o)]
    · intro h
      have hne : pyEq (PyVal.num c) (PyVal.num o) = false := by
        rw [Bool.eq_false_iff]
        intro hq
        exact absurd ((pyEq_num c o).mp hq) (by linarith)
      have h1 : pyLt (PyVal.num c) (PyVal.num o) = false := by
        rw [Bool.eq_false_iff]
        intro hq
        exact absurd ((pyLt_num c o).mp hq) (by linarith)
      simp [isBetter, hne, h1, (pyLt_num o c).mpr (by linarith : o < c)]
  · rintro rfl
    constructor
    · intro h
      have hco : c ≠ o := by
        intro hq
        rw [hq] at h
        exact absurd h (lt_irrefl _)
      have hne : pyEq (PyVal.num c) (PyVal.num o) = false := by
        rw [Bool.eq_false_iff]
        intro hq
        exact absurd ((pyEq_num c o).mp hq) hco
      simp [isBetter, hne, (pyAbsLt_num c o).mpr h]
    · intro h
      have hco : c ≠ o := by
        intro hq
        rw [hq] at h
        exact absurd h (lt_irrefl _)
      have hne : pyEq (PyVal.num c) (PyVal.num o) = false := by
        rw [Bool.eq_false_iff]
        intro hq
        exact absurd ((pyEq_num c o).mp hq) hco
      have h1 : pyAbsLt (PyVal.num c) (PyVal.num o) = false := by
        rw [Bool.eq_false_iff]
        intro hq
        exact absurd ((pyAbsLt_num c o).mp hq) (by linarith)
      simp [isBetter, hne, h1, (pyAbsLt_num o c).mpr h]

/-- C5 witness: the spec's own example — original raw 10, comparison raw
15: improvement under `higher_is_better = true`, regression under
`false`. -/
theorem C5_delta_sign_convention_witness :
    isBetter (.num 10) (.num 15) (some .higher) = some true ∧
    isBetter (.num 10) (.num 15) (some .lower) = some false :=
  ⟨((C5_delta_sign_convention 10 15 (some .higher)).2.2.1 rfl).1 (by norm_num),
   ((C5_delta_sign_convention 10 15 (some .lower)).2.2.2.1 rfl).2 (by norm_num)⟩

/-- C6 counterexample: with the enriched 5-row frame compared against
itself, the metric `Total Blocks Synced` has the non-null raw value `40`
on both sides, yet the rendered summary carries *no* delta entry for it:
the annotation is appended only under a colour class (lines 477-478), and
a zero delta is neutral.  This refutes the claim that a delta entry is
included for every metric present in both results, including zero
deltas. -/
theorem C6_counterexample :
    statsOk (get_stats_dict (process_progress_df ⟨5, some [0, 10, 20, 30, 40], none,
        some [0, 1000, 3000, 4000, 4000], none, none, none⟩))
      (fun S => ((statsGet S Metric.totalBlocks).raw == some (PyVal.num 40)) &&
        (summaryRowDelta S S Metric.totalBlocks == none)) = true := by
  have h1 : process_progress_df ⟨5, some [0, 10, 20, 30, 40], none,
        some [0, 1000, 3000, 4000, 4000], none, none, none⟩ =
      ⟨5, some [0, 10, 20, 30, 40], some [0, 1, 3, 4, 4], some [0, 1000, 3000, 4000, 4000],
        none, some ([0, 1, 3, 4, 4].map format_seconds), some [0, 10, 5, 10, 0]⟩ := by
    norm_num [process_progress_df, enrichBps, computeBps, seriesDiff, diffPairs,
      replaceZeroNA, divNA]
  rw [h1]
  rw [show get_stats_dict ⟨5, some [0, 10, 20, 30, 40], some [0, 1, 3, 4, 4],
      some [0, 1000, 3000, 4000, 4000], none, some ([0, 1, 3, 4, 4].map format_seconds),
      some [0, 10, 5, 10, 0]⟩ =
      Except.ok (mainStats [0, 10, 5, 10, 0] [0, 1, 3, 4, 4] [0, 10, 20, 30, 40]) from by
    rw [get_stats_dict, if_neg (by simp)]]
  have h2 : (mainStats [0, 10, 5, 10, 0] [0, 1, 3, 4, 4] [0, 10, 20, 30, 40]).totalBlocks.raw
      = some (PyVal.num 40) := by
    norm_num [mainStats]
  have h3 : summaryRowDelta (mainStats [0, 10, 5, 10, 0] [0, 1, 3, 4, 4] [0, 10, 20, 30, 40])
      (mainStats [0, 10, 5, 10, 0] [0, 1, 3, 4, 4] [0, 10, 20, 30, 40])
      Metric.totalBlocks = none := by
    unfold summaryRowDelta compareDelta
    rw [show statsGet (mainStats [0, 10, 5, 10, 0] [0, 1, 3, 4, 4] [0, 10, 20, 30, 40])
        Metric.totalBlocks =
        (mainStats [0, 10, 5, 10, 0] [0, 1, 3, 4, 4] [0, 10, 20, 30, 40]).totalBlocks from rfl,
      h2]
    dsimp only
    rw [isBetter_self]
  simp [statsOk, statsGet, h2, h3]

/-- C6 amended: the rendered summary carries a delta annotation for a
metric exactly when both raw values are non-null *and* the classification
is decisive (improvement or regression); a neutral classification — in
particular any zero delta, an unlisted policy, or a `closer_to_zero` tie —
and any null raw value yield no annotation. -/
theorem C6_amended (so sc : SyncStats) (m : Metric) :
    (∀ sp : DeltaSpan, summaryRowDelta so sc m = some sp ↔
      ((statsGet so m).raw = some sp.origRaw ∧ (statsGet sc m).raw = some sp.compRaw ∧
        isBetter sp.origRaw sp.compRaw (progressHib m) = some sp.better)) ∧
    (∀ o c, (statsGet so m).raw = some o → (statsGet sc m).raw = some c →
      isBetter o c (progressHib m) = none → summaryRowDelta so sc m = none) ∧
    (∀ q, (statsGet so m).raw = some q → (statsGet sc m).raw = some q →
      summaryRowDelta so sc m = none) ∧
    ((statsGet so m).raw = none ∨ (statsGet sc m).raw = none →
      summaryRowDelta so sc m = none) := by
  refine ⟨?_, ?_, ?_, ?_⟩
  · rintro ⟨spc, spo, spb⟩
    unfold summaryRowDelta compareDelta
    cases ho : (statsGet so m).raw with
    | none => simp
    | some o =>
      cases hc : (statsGet sc m).raw with
      | none => simp
      | some c =>
        dsimp only
        cases hb : isBetter o c (progressHib m) with
        | none =>
          dsimp only
          constructor
          · intro h
            exact Option.noConfusion h
          · rintro ⟨h1, h2, h3⟩
            obtain rfl : o = spo := by injection h1
            obtain rfl : c = spc := by injection h2
            rw [hb] at h3
            exact Option.noConfusion h3
        | some b =>
          dsimp only
          constructor
          · intro h
            have h4 : (⟨c, o, b⟩ : DeltaSpan) = ⟨spc, spo, spb⟩ := by injection h
            simp only [DeltaSpan.mk.injEq] at h4
            obtain ⟨rfl, rfl, rfl⟩ := h4
            exact ⟨rfl, rfl, hb⟩
          · rintro ⟨h1, h2, h3⟩
            obtain rfl : o = spo := by injection h1
            obtain rfl : c = spc := by injection h2
            rw [hb] at h3
            obtain rfl : b = spb := by injection h3
            rfl
  · intro o c ho hc hb
    unfold summaryRowDelta compareDelta
    rw [ho, hc]
    dsimp only
    rw [hb]
  · intro q ho hc
    unfold summaryRowDelta compareDelta
    rw [ho, hc]
    dsimp only
    rw [isBetter_self]
  · rintro (ho | hc)
    · unfold summaryRowDelta compareDelta
      rw [ho]
    · unfold summaryRowDelta compareDelta
      rw [hc]
      cases (statsGet so m).raw <;> rfl

/-- C6 amended witness: a metric whose raw value is null on both sides
(the all-`N/A` dictionary) gets no delta annotation. -/
theorem C6_amended_witness : summaryRowDelta naStats naStats Metric.totalBlocks = none :=
  (C6_amended naStats naStats Metric.totalBlocks).2.2.2 (Or.inl rfl)

/-- C7: on an enriched frame with `N ≥ 2` rows, every `Blocks_per_Second`
summary statistic (min, quartiles, mean, median, max, standard deviation,
skewness) equals the same statistic computed over the manually-sliced rows
`1 .. N-1`: the first row is excluded from every `Blocks_per_Second`
statistic. -/
theorem C7_first_row_excluded (df : DF) (bps ts hs manual : List ℚ)
    (hwf : df.wf = true) (h2 : 2 ≤ df.nrows)
    (hb : df.bps = some bps) (ht : df.accS = some ts) (hh : df.height = some hs)
    (hman : manual = (List.range (df.nrows - 1)).map (fun i => bps.getD (i + 1) 0)) :
    ∃ S, get_stats_dict df = Except.ok S ∧
      S.minS.raw = some (.num (seriesMin manual)) ∧
      S.q1S.raw = some (.num (percentile (1 / 4) manual)) ∧
      S.meanS.raw = some (.num (seriesMean manual)) ∧
      S.medianS.raw = some (.num (percentile (1 / 2) manual)) ∧
      S.q3S.raw = some (.num (percentile (3 / 4) manual)) ∧
      S.maxS.raw = some (.num (seriesMax manual)) ∧
      S.stdS.raw = some (seriesStd manual) ∧
      S.skewS.raw = some (denan (pandasSkew manual)) := by
  have hlen : bps.length = df.nrows := wf_bps hwf hb
  have hman2 : manual = bps.drop 1 := by
    rw [hman, ← hlen, manual_slice_eq_drop]
  have hcond : ¬ (df.nrows = 0 ∨ df.bps = none ∨ df.nrows < 2) := by
    push_neg
    refine ⟨by omega, ?_, by omega⟩
    rw [hb]
    simp
  have hlend : (bps.drop 1).length = df.nrows - 1 := by
    rw [List.length_drop, hlen]
  have hne : (bps.drop 1).isEmpty = false := by
    cases hdrop : bps.drop 1 with
    | nil => rw [hdrop] at hlend; simp at hlend; omega
    | cons x xs => rfl
  refine ⟨mainStats bps ts hs, ?_, ?_, ?_, ?_, ?_, ?_, ?_, ?_, ?_⟩
  · unfold get_stats_dict
    rw [if_neg hcond, hb, ht, hh]
  all_goals
    rw [hman2]
    simp only [mainStats, hne, Bool.false_eq_true, if_false]

/-- C7 witness: the theorem applied to a concrete enriched 3-row frame;
the reported minimum sample speed is the minimum of the manual slice
`[5, 10]`. -/
theorem C7_first_row_excluded_witness :
    statsOk (get_stats_dict ⟨3, some [0, 5, 15], some [0, 1, 2], none, none, none,
        some [0, 5, 10]⟩)
      (fun S => S.minS.raw == some (PyVal.num (seriesMin [5, 10]))) = true := by
  obtain ⟨S, hS, hmin, _⟩ := C7_first_row_excluded
    ⟨3, some [0, 5, 15], some [0, 1, 2], none, none, none, some [0, 5, 10]⟩
    [0, 5, 10] [0, 1, 2] [0, 5, 15] [5, 10]
    (by decide) (by decide) rfl rfl rfl (by norm_num [List.range_succ])
  rw [hS]
  simp [statsOk, hmin]

/-- C8: on any frame with fewer than two rows, the summary-statistics
computation returns (it does not raise) the dictionary in which every
metric is the display string `N/A` paired with a null raw value. -/
theorem C8_short_input_na (df : DF) (h : df.nrows < 2) :
    get_stats_dict df = Except.ok naStats ∧
    ∀ m : Metric, statsGet naStats m = ⟨DispVal.na, none⟩ := by
  constructor
  · unfold get_stats_dict
    rw [if_pos (Or.inr (Or.inr h))]
  · intro m
    cases m <;> rfl

/-- C8 witness: the theorem applied to the empty frame. -/
theorem C8_short_input_na_witness :
    get_stats_dict ⟨0, none, none, none, none, none, none⟩ = Except.ok naStats :=
  (C8_short_input_na ⟨0, none, none, none, none, none, none⟩ (by decide)).1

/-- C9 counterexample: for the enriched 2-row frame (exactly one usable
`Blocks_per_Second` sample after excluding the first row), the *raw*
skewness is `0.0` as claimed, but the *displayed* skewness is the
formatting of `NaN` (the string `nan`, since pandas `skew()` of one sample
is `NaN` and only the raw value is `NaN`-guarded at line 384), not the
formatting of `0.0` — refuting the claim that the displayed value is
exactly `0.0`. -/
theorem C9_counterexample :
    statsOk (get_stats_dict (process_progress_df ⟨2, some [0, 10], some [0, 1], none, none,
        none, none⟩))
      (fun S => (S.skewS.display == DispVal.nanStr) && (S.skewS.raw == some (PyVal.num 0)))
      = true ∧
    DispVal.nanStr ≠ DispVal.fixed2 0 := by
  constructor
  · have h1 : process_progress_df ⟨2, some [0, 10], some [0, 1], none, none, none, none⟩ =
        ⟨2, some [0, 10], some [0, 1], none, none, some ([0, 1].map format_seconds),
          some [0, 10]⟩ := by
      norm_num [process_progress_df, enrichBps, computeBps, seriesDiff, diffPairs,
        replaceZeroNA, divNA]
    rw [h1]
    rw [show get_stats_dict ⟨2, some [0, 10], some [0, 1], none, none,
        some ([0, 1].map format_seconds), some [0, 10]⟩ =
        Except.ok (mainStats [0, 10] [0, 1] [0, 10]) from by
      rw [get_stats_dict, if_neg (by simp)]]
    norm_num [statsOk, mainStats, pandasSkew, denan, dispFixed2]
  · intro h
    exact DispVal.noConfusion h

/-- C9 amended: on an enriched frame with exactly two rows — the only way
the post-first-row series has at most one sample while statistics are
computed at all — the raw skewness is exactly `0.0` (never `NaN`: the
`pd.notna` guard maps the `NaN` to `0.0`), but the displayed skewness is
the formatting of `NaN`; frames with fewer than two rows instead report
`N/A` with a null raw value. -/
theorem C9_amended (df : DF) (bps ts hs : List ℚ)
    (hwf : df.wf = true) (h2 : df.nrows = 2)
    (hb : df.bps = some bps) (ht : df.accS = some ts) (hh : df.height = some hs) :
    ∃ S, get_stats_dict df = Except.ok S ∧
      S.skewS.raw = some (PyVal.num 0) ∧ S.skewS.display = DispVal.nanStr := by
  have hlen : bps.length = df.nrows := wf_bps hwf hb
  have hcond : ¬ (df.nrows = 0 ∨ df.bps = none ∨ df.nrows < 2) := by
    push_neg
    refine ⟨by omega, ?_, by omega⟩
    rw [hb]
    simp
  have hlend : (bps.drop 1).length = 1 := by
    rw [List.length_drop, hlen, h2]
  have hne : (bps.drop 1).isEmpty = false := by
    cases hdrop : bps.drop 1 with
    | nil => rw [hdrop] at hlend; simp at hlend
    | cons x xs => rfl
  have hskew : pandasSkew (bps.drop 1) = PyVal.nan := by
    unfold pandasSkew
    rw [if_pos (by rw [hlend]; omega)]
  refine ⟨mainStats bps ts hs, ?_, ?_, ?_⟩
  · unfold get_stats_dict
    rw [if_neg hcond, hb, ht, hh]
  · simp only [mainStats, hne, Bool.false_eq_true, if_false, hskew]
    rfl
  · simp only [mainStats, hne, Bool.false_eq_true, if_false, hskew]
    rfl

/-- C9 amended witness: the theorem applied to the concrete enriched 2-row
frame. -/
theorem C9_amended_witness :
    statsOk (get_stats_dict ⟨2, some [0, 10], some [0, 1], none, none, none, some [0, 10]⟩)
      (fun S => (S.skewS.raw == some (PyVal.num 0)) && (S.skewS.display == DispVal.nanStr))
      = true := by
  obtain ⟨S, hS, hraw, hdisp⟩ := C9_amended
    ⟨2, some [0, 10], some [0, 1], none, none, none, some [0, 10]⟩
    [0, 10] [0, 1] [0, 10] (by decide) rfl rfl rfl rfl
  rw [hS]
  simp [statsOk, hraw, hdisp]

end SignumPipeline
